import Mathlib

/-!
Verification of the skeptic-rs documentation-test extractor and runner.

The development shallowly embeds the relevant Rust functions:
* `sanitize_test_name`, `parse_code_block_info`, `extract_tests_from_string`
  (from `src/main.rs`),
* `clean_code_line` and the `lib.rs` variant of the extractor
  (from `src/lib.rs`),
* `run_test` (from `src/run.rs`, with the external `cargo` invocations
  passed in as exit-status oracles).

Markdown parsing (`pulldown_cmark`) is an external collaborator: the
extractor is embedded as a state machine consuming a list of scanner
events, each paired with its starting byte offset in the document, exactly
as `Parser::into_offset_iter` delivers them.
-/

namespace Skeptic

/-- UTF-8 encoding of one character (standard encoding, used to model
Rust byte offsets into the document string). -/
def charUtf8 (c : Char) : List Nat :=
  let n := c.toNat
  if n < 0x80 then [n]
  else if n < 0x800 then [0xC0 + n / 64, 0x80 + n % 64]
  else if n < 0x10000 then
    [0xE0 + n / 4096, 0x80 + (n / 64) % 64, 0x80 + n % 64]
  else
    [0xF0 + n / 262144, 0x80 + (n / 4096) % 64, 0x80 + (n / 64) % 64, 0x80 + n % 64]

/-- The UTF-8 bytes of a string (Rust `s.as_bytes()`). -/
def strBytes (s : String) : List Nat :=
  s.toList.flatMap charUtf8

/-- Rust `bytecount::count(&s.as_bytes()[0..offset], b'\n')`: the number of
newline bytes among the first `offset` bytes of the document. -/
def line_number (s : String) (offset : Nat) : Nat :=
  ((strBytes s).take offset).count 10

/-- Rust byte-slicing `&s[..n]`: the characters making up the first `n`
UTF-8 bytes, or `none` when `n` is not a character boundary (in Rust this
panics). -/
def takeBytes : List Char → Nat → Option (List Char)
  | _, 0 => some []
  | [], _ + 1 => none
  | c :: cs, n + 1 =>
    if c.utf8Size ≤ n + 1 then (takeBytes cs (n + 1 - c.utf8Size)).map (c :: ·)
    else none

/-- One character of `to_ascii_lowercase` followed by the map in
`sanitize_test_name`: keep an ASCII alphanumeric character (lowercased),
replace everything else by `'_'`. -/
def sanitizeChar (c : Char) : Char :=
  if c.toLower.isAlphanum then c.toLower else '_'

/-- Rust `str::split` with a separator predicate: splits at every
character satisfying `p`; adjacent separators yield empty pieces, the
empty input yields one empty piece. -/
def splitOnPred (p : Char → Bool) : List Char → List (List Char)
  | [] => [[]]
  | c :: cs =>
    if p c then [] :: splitOnPred p cs
    else
      match splitOnPred p cs with
      | [] => [[c]]
      | r :: rs => (c :: r) :: rs

/-- Rust `.join("_")` on a list of pieces. -/
def joinUnderscore : List (List Char) → List Char
  | [] => []
  | [t] => t
  | t :: ts => t ++ '_' :: joinUnderscore ts

/-- The normalization phase of `sanitize_test_name` (everything after the
byte slice): lowercase, replace non-alphanumerics by `'_'`, split on
`'_'`, drop empty pieces, rejoin with `'_'`. -/
def collapse_name (cs : List Char) : List Char :=
  joinUnderscore
    ((splitOnPred (fun c => c == '_') (cs.map sanitizeChar)).filter (fun t => t ≠ []))

/-- Rust `sanitize_test_name` from `src/main.rs`: slices off the last three
bytes (`&s[..s.len() - 3]`, `none` models the panic when the input is
shorter than three bytes or the cut splits a UTF-8 character), then
normalizes. -/
def sanitize_test_name (s : String) : Option String :=
  if s.utf8ByteSize < 3 then none
  else
    match takeBytes s.toList (s.utf8ByteSize - 3) with
    | none => none
    | some cs => some (String.mk (collapse_name cs))

/-- The flag set produced by `parse_code_block_info` (identical in
`src/main.rs` and `src/lib.rs`). -/
structure CodeBlockInfo where
  is_rust : Bool
  should_panic : Bool
  ignore : Bool
  no_run : Bool
deriving DecidableEq, Repr

/-- The separator predicate of `parse_code_block_info`:
`!(c == '_' || c == '-' || c.is_alphanumeric())`. -/
def infoSep (c : Char) : Bool :=
  !(c == '_' || c == '-' || c.isAlphanum)

/-- The token list of an info string: Rust
`info.split(|c| !(c == '_' || c == '-' || c.is_alphanumeric()))`. -/
def info_tokens (s : String) : List (List Char) :=
  splitOnPred infoSep s.toList

/-- The loop state of `parse_code_block_info`. -/
structure ParseInfoState where
  seen_rust_tags : Bool
  seen_other_tags : Bool
  info : CodeBlockInfo
deriving DecidableEq, Repr

/-- One iteration of the token loop in `parse_code_block_info`. -/
def classifyToken (st : ParseInfoState) (token : List Char) : ParseInfoState :=
  if token = [] then st
  else if token = "rust".toList then
    { st with info := { st.info with is_rust := true }, seen_rust_tags := true }
  else if token = "should_panic".toList then
    { st with info := { st.info with should_panic := true }, seen_rust_tags := true }
  else if token = "ignore".toList then
    { st with info := { st.info with ignore := true }, seen_rust_tags := true }
  else if token = "no_run".toList then
    { st with info := { st.info with no_run := true }, seen_rust_tags := true }
  else
    { st with seen_other_tags := true }

/-- Rust `parse_code_block_info` from `src/main.rs` / `src/lib.rs`: fold the
token loop, then apply the final mask
`info.is_rust &= !seen_other_tags || seen_rust_tags`. -/
def parse_code_block_info (s : String) : CodeBlockInfo :=
  let st := (info_tokens s).foldl classifyToken
    ⟨false, false, ⟨false, false, false, false⟩⟩
  { st.info with
    is_rust := st.info.is_rust && (!st.seen_other_tags || st.seen_rust_tags) }

/-- Rust `str::trim`: remove leading and trailing whitespace. -/
def rustTrim (s : String) : String :=
  String.mk (((s.toList.dropWhile Char.isWhitespace).reverse.dropWhile
    Char.isWhitespace).reverse)

/-- Rust `clean_code_line` from `src/lib.rs`: trim the line; if the trimmed
line has the prefix `"# "` keep the rest (`strip_prefix`), if it is
exactly `"#"` or empty drop it, otherwise keep the trimmed line.  (A
trimmed string starting with `'#'` followed by `' '` is exactly a string
with `strip_prefix("# ")` defined, since trimming leaves no trailing
spaces.) -/
def clean_code_line (line : String) : Option String :=
  let trimmed := rustTrim line
  match trimmed.toList with
  | '#' :: ' ' :: rest => some (String.mk rest)
  | ['#'] => none
  | [] => none
  | _ => some trimmed

/-- Rust `str::lines()`: split on `'\n'`, remove one trailing `'\r'` from
each line, and drop the final empty piece produced by a trailing newline
(so the empty string yields no lines). -/
def rust_lines (s : String) : List String :=
  let parts := (splitOnPred (fun c => c == '\n') s.toList).map
    (fun l => String.mk (if l.getLast? = some '\r' then l.dropLast else l))
  match parts.getLast? with
  | some "" => parts.dropLast
  | _ => parts

/-- Decimal rendering of a `usize` (Rust `format!("{}", n)`),
most-significant digit first; structurally recursive on a fuel argument
that starts at `n + 1` so it never runs out. -/
def natDecimalCore : Nat → Nat → List Char → List Char
  | 0, _, acc => acc
  | fuel + 1, n, acc =>
    if n < 10 then Nat.digitChar n :: acc
    else natDecimalCore fuel (n / 10) (Nat.digitChar (n % 10) :: acc)

/-- Decimal rendering of a `usize` as a string. -/
def natDecimal (n : Nat) : String :=
  String.mk (natDecimalCore (n + 1) n [])

/-- The test name built on code-block close in `src/main.rs`:
`format!("{}_sect_{}_line_{}", file_stem, section, code_block_start)` when
a section is present, `format!("{}_line_{}", file_stem, code_block_start)`
otherwise. -/
def test_name (file_stem : String) (sect : Option String) (line : Nat) : String :=
  match sect with
  | some sec => file_stem ++ "_sect_" ++ sec ++ "_line_" ++ natDecimal line
  | none => file_stem ++ "_line_" ++ natDecimal line

/-- The scanner events the extractor inspects (`pulldown_cmark` is an
external collaborator; events the Rust `match` sends to its wildcard arm
are represented by `other`, and the start of an indented — non-fenced —
code block, which also falls in the wildcard, by
`codeBlockStartIndented`). -/
inductive MdEvent where
  | headingStart (level : Nat)
  | headingEnd (level : Nat)
  | codeBlockStartFenced (info : String)
  | codeBlockStartIndented
  | codeBlockEnd
  | text (s : String)
  | other
deriving DecidableEq, Repr

/-- The `Buffer` enum shared by both extractor drafts. -/
inductive Buffer where
  | none
  | code (lines : List String)
  | heading (s : String)
deriving DecidableEq, Repr

/-- The `Test` struct of `src/main.rs`. -/
structure MainTest where
  name : String
  text : List String
  ignore : Bool
  no_run : Bool
  should_panic : Bool
deriving DecidableEq, Repr

/-- The loop state of `extract_tests_from_string` in `src/main.rs`. -/
structure MainState where
  tests : List MainTest
  buffer : Buffer
  sect : Option String
  code_block_start : Nat
  current_info : Option CodeBlockInfo
deriving DecidableEq, Repr

/-- One iteration of the event loop of `extract_tests_from_string` in
`src/main.rs` (`s` is the document, the event carries its starting byte
offset). `none` models the panic of `sanitize_test_name` on a short
heading. -/
def mainStep (s : String) (file_stem : String) (st : MainState)
    (ev : MdEvent × Nat) : Option MainState :=
  let ln := line_number s ev.2
  match ev.1 with
  | .headingStart level =>
    if level < 3 then some { st with buffer := .heading "" } else some st
  | .headingEnd level =>
    if level < 3 then
      match st.buffer with
      | .heading h =>
        match sanitize_test_name h with
        | Option.none => Option.none
        | some x => some { st with buffer := .none, sect := some x }
      | _ => some { st with buffer := .none }
    else some st
  | .codeBlockStartFenced info =>
    let cbi := parse_code_block_info info
    if cbi.is_rust then
      some { st with buffer := .code [], current_info := some cbi }
    else some st
  | .codeBlockStartIndented => some st
  | .text t =>
    match st.buffer with
    | .code buf =>
      let start := if buf = [] then ln else st.code_block_start
      some { st with
        buffer := .code (buf ++ (rust_lines t).map (fun l => l ++ "\n")),
        code_block_start := start }
    | .heading h => some { st with buffer := .heading (h ++ t) }
    | .none => some st
  | .codeBlockEnd =>
    match st.current_info with
    | Option.none => some st
    | some info =>
      match st.buffer with
      | .code buf =>
        some { st with
          buffer := .none,
          current_info := Option.none,
          tests := st.tests ++
            [⟨test_name file_stem st.sect st.code_block_start, buf,
              info.ignore, info.no_run, info.should_panic⟩] }
      | _ => some { st with buffer := .none }
  | .other => some st

/-- The event loop of `extract_tests_from_string` in `src/main.rs`. -/
def mainExtractLoop (s : String) (file_stem : String) :
    List (MdEvent × Nat) → MainState → Option (List MainTest)
  | [], st => some st.tests
  | ev :: evs, st =>
    match mainStep s file_stem st ev with
    | Option.none => Option.none
    | some st' => mainExtractLoop s file_stem evs st'

/-- Rust `extract_tests_from_string` from `src/main.rs`, over the document `s`
and the scanner's event/offset stream. -/
def extract_tests_from_string (s : String) (events : List (MdEvent × Nat))
    (file_stem : String) : Option (List MainTest) :=
  mainExtractLoop s file_stem events ⟨[], .none, Option.none, 0, Option.none⟩

/-- The `Test` struct of `src/lib.rs`. -/
structure LibTest where
  text : List String
  path : String
  sect : Option String
  line_number : Nat
  ignore : Bool
  no_run : Bool
  should_panic : Bool
deriving DecidableEq, Repr

/-- The loop state of `extract_tests_from_string` in `src/lib.rs`. -/
structure LibState where
  tests : List LibTest
  buffer : Buffer
  sect : Option String
  code_block_start : Nat
  current_info : Option CodeBlockInfo
deriving DecidableEq, Repr

/-- One iteration of the event loop of `extract_tests_from_string` in
`src/lib.rs`.  It differs from the `src/main.rs` draft in that the heading
text is stored as the section unsanitized, code lines are filtered through
`clean_code_line`, and the emitted record keeps the section and line
number instead of a precomputed name. -/
def libStep (s : String) (file_stem : String) (st : LibState)
    (ev : MdEvent × Nat) : LibState :=
  let ln := line_number s ev.2
  match ev.1 with
  | .headingStart level =>
    if level < 3 then { st with buffer := .heading "" } else st
  | .headingEnd level =>
    if level < 3 then
      match st.buffer with
      | .heading h => { st with buffer := .none, sect := some h }
      | _ => { st with buffer := .none }
    else st
  | .codeBlockStartFenced info =>
    let cbi := parse_code_block_info info
    if cbi.is_rust then
      { st with buffer := .code [], current_info := some cbi }
    else st
  | .codeBlockStartIndented => st
  | .text t =>
    match st.buffer with
    | .code buf =>
      let start := if buf = [] then ln else st.code_block_start
      { st with
        buffer := .code (buf ++ (rust_lines t).filterMap clean_code_line),
        code_block_start := start }
    | .heading h => { st with buffer := .heading (h ++ t) }
    | .none => st
  | .codeBlockEnd =>
    match st.current_info with
    | Option.none => st
    | some info =>
      match st.buffer with
      | .code buf =>
        { st with
          buffer := .none,
          current_info := Option.none,
          tests := st.tests ++
            [⟨buf, file_stem, st.sect, st.code_block_start,
              info.ignore, info.no_run, info.should_panic⟩] }
      | _ => { st with buffer := .none }
  | .other => st

/-- Rust `extract_tests_from_string` from `src/lib.rs`, over the document `s`
and the scanner's event/offset stream. -/
def lib_extract_tests_from_string (s : String) (events : List (MdEvent × Nat))
    (file_stem : String) : List LibTest :=
  (events.foldl (libStep s file_stem) ⟨[], .none, Option.none, 0, Option.none⟩).tests

/-- The `TestStatus` enum of `src/run.rs`. -/
inductive TestStatus where
  | Ignored
  | Passed
  | Failed
deriving DecidableEq, Repr

/-- Which external effects `run_test` performed: whether the scratch
`main.rs` was overwritten, whether `cargo check` was invoked, and whether
`cargo run` was invoked. -/
structure RunEffects where
  wrote_program : Bool
  ran_check : Bool
  ran_run : Bool
deriving DecidableEq, Repr

/-- The execution flags of a test as `run_test` reads them (shared shape
of the two `Test` drafts). -/
structure RunFlags where
  ignore : Bool
  no_run : Bool
  should_panic : Bool
deriving DecidableEq, Repr

/-- Rust `run_test` from `src/run.rs`.  The exit statuses of the external
`cargo check` and `cargo run` child processes are passed in as oracles
(`true` = exit success); the returned pair is the `TestStatus` together
with the effects performed. -/
def run_test (test : RunFlags) (check_success run_success : Bool) :
    TestStatus × RunEffects :=
  if test.ignore then
    (TestStatus.Ignored, ⟨false, false, false⟩)
  else if test.no_run then
    (if !check_success then TestStatus.Failed else TestStatus.Passed,
      ⟨true, true, false⟩)
  else if test.should_panic then
    (if run_success then TestStatus.Failed else TestStatus.Passed,
      ⟨true, false, true⟩)
  else
    (if !run_success then TestStatus.Failed else TestStatus.Passed,
      ⟨true, false, true⟩)

/-! ## Helper lemmas -/

theorem splitOnPred_ne_nil (p : Char → Bool) (xs : List Char) : splitOnPred p xs ≠ [] := by
  cases xs with
  | nil => simp [splitOnPred]
  | cons c cs =>
    simp only [splitOnPred]
    split
    · simp
    · split <;> simp

theorem splitOnPred_cons_sep (p : Char → Bool) (c : Char) (xs : List Char)
    (hc : p c = true) : splitOnPred p (c :: xs) = [] :: splitOnPred p xs := by
  simp [splitOnPred, hc]

theorem splitOnPred_cons_notsep (p : Char → Bool) (c : Char) (xs : List Char)
    (hc : p c = false) :
    splitOnPred p (c :: xs) = List.modifyHead (c :: ·) (splitOnPred p xs) := by
  simp only [splitOnPred, hc]
  cases h : splitOnPred p xs with
  | nil => exact absurd h (splitOnPred_ne_nil p xs)
  | cons r rs => simp

theorem splitOnPred_append_notsep (p : Char → Bool) (t xs : List Char)
    (ht : ∀ c ∈ t, p c = false) :
    splitOnPred p (t ++ xs) = List.modifyHead (t ++ ·) (splitOnPred p xs) := by
  induction t with
  | nil =>
    cases h : splitOnPred p xs with
    | nil => exact absurd h (splitOnPred_ne_nil p xs)
    | cons r rs => simp [h]
  | cons c t ih =>
    have hc : p c = false := ht c (List.mem_cons_self c t)
    have ht' : ∀ c' ∈ t, p c' = false := fun c' hc' => ht c' (List.mem_cons_of_mem c hc')
    rw [List.cons_append, splitOnPred_cons_notsep p c (t ++ xs) hc, ih ht']
    cases h : splitOnPred p xs with
    | nil => exact absurd h (splitOnPred_ne_nil p xs)
    | cons r rs => simp

theorem splitOnPred_joinUnderscore (ts : List (List Char)) (h : ts ≠ [])
    (hfree : ∀ t ∈ ts, ∀ c ∈ t, ((c == '_') : Bool) = false) :
    splitOnPred (fun c => c == '_') (joinUnderscore ts) = ts := by
  induction ts with
  | nil => exact absurd rfl h
  | cons t ts ih =>
    cases ts with
    | nil =>
      show splitOnPred (fun c => c == '_') (joinUnderscore [t]) = [t]
      have : joinUnderscore [t] = t ++ [] := by simp [joinUnderscore]
      rw [this, splitOnPred_append_notsep _ t []
        (fun c hc => hfree t (List.mem_cons_self t []) c hc)]
      simp [splitOnPred]
    | cons t' ts' =>
      have hjoin : joinUnderscore (t :: t' :: ts') = t ++ '_' :: joinUnderscore (t' :: ts') := rfl
      rw [hjoin, splitOnPred_append_notsep _ t _
        (fun c hc => hfree t (List.mem_cons_self t _) c hc),
        splitOnPred_cons_sep _ '_' _ (by simp),
        ih (by simp) (fun u hu c hc => hfree u (List.mem_cons_of_mem t hu) c hc)]
      simp

theorem mem_splitOnPred_notsep (p : Char → Bool) (xs : List Char) :
    ∀ piece ∈ splitOnPred p xs, ∀ c ∈ piece, p c = false := by
  induction xs with
  | nil =>
    intro piece hp c hc
    simp [splitOnPred] at hp
    subst hp
    simp at hc
  | cons x xs ih =>
    intro piece hp c hc
    by_cases hx : p x = true
    · rw [splitOnPred_cons_sep p x xs hx] at hp
      rcases List.mem_cons.1 hp with h1 | h1
      · subst h1; simp at hc
      · exact ih piece h1 c hc
    · rw [splitOnPred_cons_notsep p x xs (by simpa using hx)] at hp
      cases hsp : splitOnPred p xs with
      | nil => exact absurd hsp (splitOnPred_ne_nil p xs)
      | cons r rs =>
        rw [hsp] at hp
        simp only [List.modifyHead] at hp
        rcases List.mem_cons.1 hp with h1 | h1
        · subst h1
          rcases List.mem_cons.1 hc with h2 | h2
          · subst h2; simpa using hx
          · exact ih r (by rw [hsp]; exact List.mem_cons_self r rs) c h2
        · exact ih piece (by rw [hsp]; exact List.mem_cons_of_mem r h1) c hc

theorem mem_splitOnPred_mem (p : Char → Bool) (xs : List Char) :
    ∀ piece ∈ splitOnPred p xs, ∀ c ∈ piece, c ∈ xs := by
  induction xs with
  | nil =>
    intro piece hp c hc
    simp [splitOnPred] at hp
    subst hp
    simp at hc
  | cons x xs ih =>
    intro piece hp c hc
    by_cases hx : p x = true
    · rw [splitOnPred_cons_sep p x xs hx] at hp
      rcases List.mem_cons.1 hp with h1 | h1
      · subst h1; simp at hc
      · exact List.mem_cons_of_mem x (ih piece h1 c hc)
    · rw [splitOnPred_cons_notsep p x xs (by simpa using hx)] at hp
      cases hsp : splitOnPred p xs with
      | nil => exact absurd hsp (splitOnPred_ne_nil p xs)
      | cons r rs =>
        rw [hsp] at hp
        simp only [List.modifyHead] at hp
        rcases List.mem_cons.1 hp with h1 | h1
        · subst h1
          rcases List.mem_cons.1 hc with h2 | h2
          · subst h2; exact List.mem_cons_self c xs
          · exact List.mem_cons_of_mem x
              (ih r (by rw [hsp]; exact List.mem_cons_self r rs) c h2)
        · exact List.mem_cons_of_mem x (ih piece (by rw [hsp]; exact List.mem_cons_of_mem r h1) c hc)


theorem map_joinUnderscore (f : Char → Char) (hf : f '_' = '_') (ts : List (List Char)) :
    (joinUnderscore ts).map f = joinUnderscore (ts.map (List.map f)) := by
  induction ts with
  | nil => rfl
  | cons t ts ih =>
    cases ts with
    | nil => simp [joinUnderscore]
    | cons t' ts' =>
      show (t ++ '_' :: joinUnderscore (t' :: ts')).map f = _
      rw [List.map_append, List.map_cons, hf, ih]
      rfl

theorem char_toNat_ofNat {m : Nat} (h : m.isValidChar) : (Char.ofNat m).toNat = m := by
  simp [Char.ofNat, dif_pos h, Char.ofNatAux, Char.toNat, UInt32.toNat]

theorem toLower_toNat (c : Char) : (Char.toLower c).toNat =
    if 65 ≤ c.toNat ∧ c.toNat ≤ 90 then c.toNat + 32 else c.toNat := by
  simp only [Char.toLower]
  split
  · next h =>
    have hv : (c.toNat + 32).isValidChar := Or.inl (by omega)
    rw [char_toNat_ofNat hv]
  · next h => rfl

theorem char_eq_of_toNat_eq {a b : Char} (h : a.toNat = b.toNat) : a = b := by
  apply Char.eq_of_val_eq
  apply UInt32.eq_of_toBitVec_eq
  exact BitVec.eq_of_toNat_eq h

theorem toLower_toLower (c : Char) : (Char.toLower c).toLower = Char.toLower c := by
  apply char_eq_of_toNat_eq
  rw [toLower_toNat c.toLower, toLower_toNat c]
  split
  · next h => rw [if_neg (by omega)]
  · rfl

theorem sanitizeChar_fix (c : Char) : sanitizeChar (sanitizeChar c) = sanitizeChar c := by
  unfold sanitizeChar
  split
  · next h =>
    rw [if_pos]
    · exact toLower_toLower c
    · rw [toLower_toLower]
      exact h
  · next h => decide

theorem natDecimalCore_append (fuel : Nat) : ∀ (n : Nat) (acc : List Char),
    natDecimalCore fuel n acc = natDecimalCore fuel n [] ++ acc := by
  induction fuel with
  | zero => intro n acc; simp [natDecimalCore]
  | succ fuel ih =>
    intro n acc
    simp only [natDecimalCore]
    split
    · simp
    · rw [ih (n / 10) (Nat.digitChar (n % 10) :: acc),
        ih (n / 10) [Nat.digitChar (n % 10)], List.append_assoc]
      rfl

theorem natDecimalCore_fuel (n : Nat) : ∀ (f1 f2 : Nat) (acc : List Char),
    n < f1 → n < f2 → natDecimalCore f1 n acc = natDecimalCore f2 n acc := by
  induction n using Nat.strong_induction_on with
  | _ n ih =>
    intro f1 f2 acc h1 h2
    match f1, f2 with
    | g1 + 1, g2 + 1 =>
      simp only [natDecimalCore]
      split
      · rfl
      · next h =>
        exact ih (n / 10) (Nat.div_lt_self (by omega) (by omega)) g1 g2 _
          (by omega) (by omega)

theorem natDecimalCore_length (fuel : Nat) : ∀ (n : Nat) (acc : List Char),
    0 < fuel → (natDecimalCore fuel n acc).length ≥ acc.length + 1 := by
  induction fuel with
  | zero => intro n acc h; omega
  | succ fuel ih =>
    intro n acc _
    simp only [natDecimalCore]
    split
    · simp
    · cases fuel with
      | zero => simp [natDecimalCore]
      | succ g =>
        have := ih (n / 10) (Nat.digitChar (n % 10) :: acc) (by omega)
        simp at this ⊢
        omega

theorem digitChar_inj : ∀ m < 10, ∀ n < 10, Nat.digitChar m = Nat.digitChar n → m = n := by
  decide

theorem natDecimal_inj (m : Nat) : ∀ n : Nat,
    natDecimalCore (m + 1) m [] = natDecimalCore (n + 1) n [] → m = n := by
  induction m using Nat.strong_induction_on with
  | _ m ih =>
    intro n heq
    by_cases hm : m < 10 <;> by_cases hn : n < 10
    · simp only [natDecimalCore, if_pos hm, if_pos hn] at heq
      exact digitChar_inj m hm n hn (by injection heq)
    · exfalso
      simp only [natDecimalCore, if_pos hm, if_neg hn] at heq
      rw [natDecimalCore_append] at heq
      have hl := congrArg List.length heq
      have hlen := natDecimalCore_length n (n / 10) [] (by omega)
      simp only [List.length_append, List.length_cons, List.length_nil] at hl hlen
      omega
    · exfalso
      simp only [natDecimalCore, if_neg hm, if_pos hn] at heq
      rw [natDecimalCore_append] at heq
      have hl := congrArg List.length heq
      have hlen := natDecimalCore_length m (m / 10) [] (by omega)
      simp only [List.length_append, List.length_cons, List.length_nil] at hl hlen
      omega
    · simp only [natDecimalCore, if_neg hm, if_neg hn] at heq
      rw [natDecimalCore_append m, natDecimalCore_append n] at heq
      have hrev := congrArg List.reverse heq
      simp only [List.reverse_append, List.reverse_cons, List.reverse_nil,
        List.nil_append, List.cons_append] at hrev
      have hdig : Nat.digitChar (m % 10) = Nat.digitChar (n % 10) := by
        injection hrev
      have htail : natDecimalCore m (m / 10) [] = natDecimalCore n (n / 10) [] := by
        have := congrArg List.tail hrev
        simp at this
        calc natDecimalCore m (m / 10) []
            = (natDecimalCore m (m / 10) []).reverse.reverse := by simp
          _ = (natDecimalCore n (n / 10) []).reverse.reverse := by rw [this]
          _ = natDecimalCore n (n / 10) [] := by simp
      have hmod : m % 10 = n % 10 :=
        digitChar_inj (m % 10) (by omega) (n % 10) (by omega) hdig
      have hdiv : m / 10 = n / 10 := by
        apply ih (m / 10) (Nat.div_lt_self (by omega) (by omega))
        rw [natDecimalCore_fuel (m / 10) m (m / 10 + 1) [] (by omega)
          (by omega)] at htail
        rw [natDecimalCore_fuel (n / 10) n (n / 10 + 1) [] (by omega)
          (by omega)] at htail
        exact htail
      omega



/-- The four recognized tokens of the classifier. -/
def recognizedTokens : List (List Char) :=
  ["rust".toList, "should_panic".toList, "ignore".toList, "no_run".toList]

theorem classifyToken_fold (ts : List (List Char)) :
    ∀ st : ParseInfoState,
    ((ts.foldl classifyToken st).seen_rust_tags = true ↔
      st.seen_rust_tags = true ∨ ∃ t ∈ ts, t ∈ recognizedTokens) ∧
    ((ts.foldl classifyToken st).seen_other_tags = true ↔
      st.seen_other_tags = true ∨ ∃ t ∈ ts, t ≠ [] ∧ t ∉ recognizedTokens) ∧
    ((ts.foldl classifyToken st).info.is_rust = true ↔
      st.info.is_rust = true ∨ "rust".toList ∈ ts) := by
  induction ts with
  | nil => intro st; simp
  | cons t ts ih =>
    intro st
    rw [List.foldl_cons]
    obtain ⟨ih1, ih2, ih3⟩ := ih (classifyToken st t)
    refine ⟨?_, ?_, ?_⟩
    · rw [ih1]
      unfold classifyToken
      split_ifs with h0 h1 h2 h3 h4 <;>
        simp_all [recognizedTokens]
    · rw [ih2]
      unfold classifyToken
      split_ifs with h0 h1 h2 h3 h4 <;>
        simp_all [recognizedTokens]
    · rw [ih3]
      unfold classifyToken
      split_ifs with h0 h1 h2 h3 h4 <;>
        simp_all [recognizedTokens] <;> tauto

/-- Whether `pat` occurs as a contiguous substring of the second list. -/
def isSubstrOf (pat : List Char) : List Char → Bool
  | [] => pat.isEmpty
  | c :: cs => pat.isPrefixOf (c :: cs) || isSubstrOf pat cs

/-- The end-to-end scenario-D document: a level-2 heading "Usage" followed
by a plain rust code block. -/
def usageDoc : String := "## Usage\n\n```rust\nfn main() {}\n```\n"

/-- The event/offset stream `pulldown_cmark` delivers for `usageDoc`
(each event paired with the byte offset at which its source range
starts). -/
def usageEvents : List (MdEvent × Nat) :=
  [(.headingStart 2, 0), (.text "Usage", 3), (.headingEnd 2, 0),
   (.codeBlockStartFenced "rust", 10), (.text "fn main() {}\n", 18),
   (.codeBlockEnd, 10)]


theorem natDecimal_injective {m n : Nat} (h : natDecimal m = natDecimal n) : m = n := by
  apply natDecimal_inj
  exact congrArg String.data h

/-! ## Claims -/

/-- C1 (code bug): the spec's scenario D expects a block under the level-2
heading "Usage" to receive a name containing `_sect_usage_`, following the
general rule `<base>_sect_<section>_line_<start_line>`.  On the failing
input `usageDoc` (from file `doc.md`, whose sanitized stem is `doc`), the
code derives the name `doc_sect_us_line_3`: the general shape holds, but
`sanitize_test_name` unconditionally removes the last three characters
(the slice meant to strip the `.md` extension) from the heading text too,
so the section slug is `us` rather than `usage` and the derived name does
not contain `_sect_usage_`. -/
theorem usage_heading_name_chopped :
    sanitize_test_name "doc.md" = some "doc" ∧
    extract_tests_from_string usageDoc usageEvents "doc" =
      some [⟨"doc_sect_us_line_3", ["fn main() {}\n"], false, false, false⟩] ∧
    isSubstrOf "_sect_usage_".toList "doc_sect_us_line_3".toList = false ∧
    isSubstrOf "_sect_us_".toList "doc_sect_us_line_3".toList = true := by
  decide

/-- C2 (counterexample): the claim says a line that is neither blank, nor
the bare marker, nor marker-prefixed is kept verbatim including its
leading whitespace.  Extracting a block whose only line is
`"    let x = 1;"` (four leading spaces) yields a test whose body holds
the trimmed line `"let x = 1;"`, not the original. -/
theorem code_line_not_verbatim :
    lib_extract_tests_from_string "```rust\n    let x = 1;\n```\n"
      [(.codeBlockStartFenced "rust", 0), (.text "    let x = 1;\n", 8),
        (.codeBlockEnd, 0)] "doc" =
      [⟨["let x = 1;"], "doc", Option.none, 1, false, false, false⟩] ∧
    ("let x = 1;" : String) ≠ "    let x = 1;" := by
  decide

/-- C2 (amended): every text line delivered inside a runnable code block
is first trimmed; if the trimmed line starts with the `# ` marker it is
kept with the marker stripped, if it is exactly `#` or empty it is
dropped, and every other line is kept in trimmed form (leading and
trailing whitespace removed, not verbatim); surviving lines are appended
to the buffer in original order. -/
theorem code_line_cleaning (s stem : String) (tests : List LibTest)
    (buf : List String) (sec : Option String) (start : Nat)
    (inf : Option CodeBlockInfo) (t : String) (off : Nat)
    (line rest : String) :
    ((libStep s stem ⟨tests, .code buf, sec, start, inf⟩
        (.text t, off)).buffer
      = .code (buf ++ (rust_lines t).filterMap clean_code_line))
    ∧ (rustTrim line = "" ∨ rustTrim line = "#" →
        clean_code_line line = none)
    ∧ (rustTrim line = String.mk ('#' :: ' ' :: rest.toList) →
        clean_code_line line = some rest)
    ∧ (rustTrim line ≠ "" → rustTrim line ≠ "#" →
        (∀ r : String, rustTrim line ≠ String.mk ('#' :: ' ' :: r.toList)) →
        clean_code_line line = some (rustTrim line)) := by
  refine ⟨rfl, ?_, ?_, ?_⟩
  · rintro (h | h) <;>
      · unfold clean_code_line
        rw [h]
        rfl
  · intro h
    unfold clean_code_line
    rw [h]
    rfl
  · intro h1 h2 h3
    unfold clean_code_line
    dsimp only
    split
    · next heq =>
      exfalso
      exact h3 (String.mk _) (by apply String.ext; simpa using heq)
    · next heq =>
      exfalso
      exact h2 (by apply String.ext; simpa using heq)
    · next heq =>
      exfalso
      exact h1 (by apply String.ext; simpa using heq)
    · rfl

/-- Witness for C2's amended theorem at concrete lines. -/
theorem code_line_cleaning_witness :
    clean_code_line "  # use std;" = some "use std;" ∧
    clean_code_line "   " = none ∧
    clean_code_line "  let x = 1;" = some "let x = 1;" := by
  refine ⟨(code_line_cleaning "" "" [] [] Option.none 0 Option.none "" 0
      "  # use std;" "use std;").2.2.1 (by decide),
    (code_line_cleaning "" "" [] [] Option.none 0 Option.none "" 0
      "   " "").2.1 (Or.inl (by decide)), ?_⟩
  have hr : ∀ r : String,
      rustTrim "  let x = 1;" ≠ String.mk ('#' :: ' ' :: r.toList) := by
    intro r hcontra
    have h1 : rustTrim "  let x = 1;" = "let x = 1;" := by decide
    rw [h1] at hcontra
    have h2 := congrArg String.data hcontra
    simp at h2
  have h := (code_line_cleaning "" "" [] [] Option.none 0 Option.none "" 0
    "  let x = 1;" "").2.2.2 (by decide) (by decide) hr
  rw [h]
  decide

/-- C3 (counterexample): the claim says the sanitizer is idempotent, but
applying it twice removes three more characters: sanitizing `hello.md`
gives `hello`, and sanitizing `hello` gives `he`. -/
theorem sanitize_twice_differs :
    sanitize_test_name "hello.md" = some "hello" ∧
    sanitize_test_name "hello" = some "he" ∧
    ("he" : String) ≠ "hello" := by
  decide

/-- C3 (amended): the normalization phase of the sanitizer — everything
after the unconditional removal of the last three bytes: lowercasing,
replacing non-alphanumerics by `_`, collapsing runs and trimming
separators — is idempotent; the full sanitizer is not, because each
application first chops three more characters. -/
theorem collapse_name_idempotent (cs : List Char) :
    collapse_name (collapse_name cs) = collapse_name cs := by
  unfold collapse_name
  generalize hts :
    (splitOnPred (fun c => c == '_') (cs.map sanitizeChar)).filter
      (fun t => t ≠ []) = ts
  have htne : ∀ t ∈ ts, t ≠ [] := by
    intro t ht
    rw [← hts] at ht
    have := List.of_mem_filter ht
    simpa using this
  have htmem : ∀ t ∈ ts,
      t ∈ splitOnPred (fun c => c == '_') (cs.map sanitizeChar) := by
    intro t ht
    rw [← hts] at ht
    exact List.mem_of_mem_filter ht
  have htfree : ∀ t ∈ ts, ∀ c ∈ t, ((c == '_') : Bool) = false := by
    intro t ht c hc
    exact mem_splitOnPred_notsep _ _ t (htmem t ht) c hc
  have htfix : ∀ t ∈ ts, ∀ c ∈ t, sanitizeChar c = c := by
    intro t ht c hc
    have hmem : c ∈ cs.map sanitizeChar :=
      mem_splitOnPred_mem _ _ t (htmem t ht) c hc
    rcases List.mem_map.1 hmem with ⟨c', _, rfl⟩
    exact sanitizeChar_fix c'
  have hmap : (joinUnderscore ts).map sanitizeChar = joinUnderscore ts := by
    rw [map_joinUnderscore sanitizeChar (by decide)]
    congr 1
    calc ts.map (List.map sanitizeChar) = ts.map id := by
          apply List.map_congr_left
          intro t ht
          show List.map sanitizeChar t = id t
          calc List.map sanitizeChar t = List.map id t :=
                List.map_congr_left (fun c hc => htfix t ht c hc)
            _ = t := List.map_id t
      _ = ts := List.map_id ts
  rw [hmap]
  cases hts' : ts with
  | nil => rfl
  | cons t ts' =>
    rw [← hts']
    rw [splitOnPred_joinUnderscore ts (by rw [hts']; simp) htfree]
    rw [List.filter_eq_self.2 (by intro t ht; simpa using htne t ht)]

/-- C4: two code blocks of the same document with the same file stem and
the same (possibly absent) section but different start lines receive
different derived test names, because the trailing decimal rendering of
the start line is injective. -/
theorem test_name_line_injective (stem : String) (sect : Option String)
    (l1 l2 : Nat) (h : l1 ≠ l2) :
    test_name stem sect l1 ≠ test_name stem sect l2 := by
  intro heq
  apply h
  cases sect with
  | none =>
    unfold test_name at heq
    have hd := congrArg String.data heq
    simp only [String.data_append, List.append_assoc] at hd
    have h1 := List.append_cancel_left hd
    have h2 := List.append_cancel_left h1
    exact natDecimal_injective (String.ext h2)
  | some sec =>
    unfold test_name at heq
    have hd := congrArg String.data heq
    simp only [String.data_append, List.append_assoc] at hd
    have h1 := List.append_cancel_left hd
    have h2 := List.append_cancel_left h1
    have h3 := List.append_cancel_left h2
    have h4 := List.append_cancel_left h3
    exact natDecimal_injective (String.ext h4)

/-- Witness for C4 at a concrete stem, section and pair of lines. -/
theorem test_name_line_injective_witness :
    test_name "doc" (some "us") 1 ≠ test_name "doc" (some "us") 2 :=
  test_name_line_injective "doc" (some "us") 1 2 (by decide)

/-- C5: the classifier splits the info string on every character that is
not alphanumeric, `_` or `-` (`info_tokens`), and marks the block
runnable exactly when the `rust` token was seen and either no unrecognized
nonempty token was seen or at least one recognized token (`rust`,
`should_panic`, `ignore`, `no_run`) was seen; a token list lacking `rust`
is never runnable. -/
theorem parse_code_block_info_runnable (s : String) :
    ((parse_code_block_info s).is_rust = true ↔
      "rust".toList ∈ info_tokens s ∧
        (¬(∃ t ∈ info_tokens s, t ≠ [] ∧ t ∉ recognizedTokens) ∨
          ∃ t ∈ info_tokens s, t ∈ recognizedTokens)) ∧
    ("rust".toList ∉ info_tokens s →
      (parse_code_block_info s).is_rust = false) := by
  obtain ⟨h1, h2, h3⟩ :=
    classifyToken_fold (info_tokens s) ⟨false, false, ⟨false, false, false, false⟩⟩
  simp only [Bool.false_eq_true, false_or] at h1 h2 h3
  have hmain : (parse_code_block_info s).is_rust = true ↔
      "rust".toList ∈ info_tokens s ∧
        (¬(∃ t ∈ info_tokens s, t ≠ [] ∧ t ∉ recognizedTokens) ∨
          ∃ t ∈ info_tokens s, t ∈ recognizedTokens) := by
    unfold parse_code_block_info
    simp only [Bool.and_eq_true, Bool.or_eq_true, Bool.not_eq_true']
    rw [h1, h3]
    constructor
    · rintro ⟨hr, hor⟩
      refine ⟨hr, ?_⟩
      rcases hor with hof | hrt
      · left
        rw [← h2]
        simp [hof]
      · right
        exact hrt
    · rintro ⟨hr, hor⟩
      refine ⟨hr, ?_⟩
      rcases hor with hof | hrt
      · left
        rw [← h2] at hof
        simpa using hof
      · right
        exact hrt
  refine ⟨hmain, fun hnr => ?_⟩
  rw [Bool.eq_false_iff]
  intro hcontra
  exact hnr (hmain.1 hcontra).1

/-- Witness for C5: a plain `python` block is not runnable. -/
theorem parse_code_block_info_runnable_witness :
    (parse_code_block_info "python").is_rust = false :=
  (parse_code_block_info_runnable "python").2 (by decide)

/-- C6: for an executed test with `should_panic` set (not ignored, not
`no_run`), the outcome is Failed when the `cargo run` invocation exits
successfully and Passed when it exits with failure. -/
theorem run_test_expect_panic_outcome (t : RunFlags) (c r : Bool)
    (hig : t.ignore = false) (hnr : t.no_run = false)
    (hsp : t.should_panic = true) :
    (run_test t c r).1 =
      if r then TestStatus.Failed else TestStatus.Passed := by
  simp [run_test, hig, hnr, hsp]

/-- Witness for C6: a successful run of a `should_panic` test fails. -/
theorem run_test_expect_panic_outcome_witness :
    (run_test ⟨false, false, true⟩ true true).1 = TestStatus.Failed := by
  have h := run_test_expect_panic_outcome ⟨false, false, true⟩ true true
    rfl rfl rfl
  simpa using h

/-- C7: for a test with `no_run` set and `ignore` clear, the body is
written and `cargo check` invoked but the program is never run
(`ran_run = false`); the outcome is Passed if the build succeeds and
Failed if it fails. -/
theorem run_test_no_run_outcome (t : RunFlags) (c r : Bool)
    (hig : t.ignore = false) (hnr : t.no_run = true) :
    (run_test t c r).1 =
      (if c then TestStatus.Passed else TestStatus.Failed) ∧
    (run_test t c r).2 = ⟨true, true, false⟩ := by
  cases c <;> simp [run_test, hig, hnr]

/-- Witness for C7: a compiling `no_run` test passes without running. -/
theorem run_test_no_run_outcome_witness :
    (run_test ⟨false, true, false⟩ true true).1 = TestStatus.Passed ∧
    (run_test ⟨false, true, false⟩ true true).2 = ⟨true, true, false⟩ := by
  have h := run_test_no_run_outcome ⟨false, true, false⟩ true true rfl rfl
  simpa using h

/-- C8: a test with `ignore` set yields Ignored, with no program file
written and neither `cargo check` nor `cargo run` invoked, regardless of
either oracle exit status. -/
theorem run_test_ignored_outcome (t : RunFlags) (c r : Bool)
    (hig : t.ignore = true) :
    run_test t c r = (TestStatus.Ignored, ⟨false, false, false⟩) := by
  simp [run_test, hig]

/-- Witness for C8 at concrete flags and oracles. -/
theorem run_test_ignored_outcome_witness :
    run_test ⟨true, false, false⟩ false true =
      (TestStatus.Ignored, ⟨false, false, false⟩) :=
  run_test_ignored_outcome ⟨true, false, false⟩ false true rfl

/-- C9: the sanitizer slices off the last three bytes unconditionally, so
it models a panic (`none`) on every input shorter than three bytes — such
as a one- or two-character heading, which reaches it on heading close —
and also when the cut falls inside a multi-byte UTF-8 character, as in
`"€a"` (four bytes, cut after byte one, inside the three-byte `€`). -/
theorem sanitize_test_name_not_total (s : String)
    (h : s.utf8ByteSize < 3) :
    sanitize_test_name s = none ∧ sanitize_test_name "€a" = none :=
  ⟨by simp [sanitize_test_name, h], by decide⟩

/-- Witness for C9 at the two-byte input `"ab"`. -/
theorem sanitize_test_name_not_total_witness :
    sanitize_test_name "ab" = none ∧ sanitize_test_name "€a" = none :=
  sanitize_test_name_not_total "ab" (by decide)

/-- C10: in build-and-run mode with `should_panic` set, every non-success
exit of `cargo run` — including one caused by the body failing to
compile, since the model only observes the process exit status — is
classified Passed. -/
theorem run_test_expect_panic_nonsuccess_passed (t : RunFlags) (c : Bool)
    (hig : t.ignore = false) (hnr : t.no_run = false)
    (hsp : t.should_panic = true) :
    (run_test t c false).1 = TestStatus.Passed ∧
    (run_test t c false).2.ran_run = true := by
  simp [run_test, hig, hnr, hsp]

/-- Witness for C10 at concrete flags. -/
theorem run_test_expect_panic_nonsuccess_passed_witness :
    (run_test ⟨false, false, true⟩ true false).1 = TestStatus.Passed ∧
    (run_test ⟨false, false, true⟩ true false).2.ran_run = true :=
  run_test_expect_panic_nonsuccess_passed ⟨false, false, true⟩ true
    rfl rfl rfl

end Skeptic
